import Mathlib

/-!
Verification of the cloud-manager reconciliation-engine core: a shallow
embedding of `components/lib/composed/updateStatus.go` (the status-update
builder) and of the `iprange.New` pipeline assembly, together with models of
the collaborator functions they call (the `k8s.io/apimachinery` condition
helpers, and the `composed` package combinators described by the spec).

Modelling conventions:
- Go `error` control-signal values become the inductive `Err`; a Go `nil`
  error becomes `none : Option Err`.
- Ambient `context.Context` values are modelled opaquely by `Ctx`; a `nil`
  replacement context becomes `none : Option Ctx`.
- Side effects (logging, the single wrapper invocation, the persistence call)
  are recorded as an explicit list of `Event`s in the result.
- `time.Now()` (used by the apimachinery condition helpers for
  `LastTransitionTime`) is modelled as an explicit `now : Nat` input; the
  zero `metav1.Time` is modelled by `0`.
- The persistence collaborator `state.UpdateObjStatus(ctx)` is external to
  the engine ("persist current status; return error or nil" per the spec),
  so its outcome is an explicit `Option Err` input of `Run`.
-/

namespace CloudManager

/-- Control-signal vocabulary.  `stopAndForget` and `stopWithRequeue` model
the sentinel errors `composed.StopAndForget` / `composed.StopWithRequeue`;
`wrapped` models `fmt.Errorf("...: %w", err)`; `errMsg` a plain error. -/
inductive Err where
  | stopAndForget : Err
  | stopWithRequeue : Err
  | errMsg (s : String) : Err
  | wrapped (msg : String) (cause : Err) : Err
deriving DecidableEq, Repr

/-- The sentinel `composed.StopAndForget`. -/
def StopAndForget : Err := Err.stopAndForget

/-- The sentinel `composed.StopWithRequeue`. -/
def StopWithRequeue : Err := Err.stopWithRequeue

/-- Opaque model of an ambient `context.Context` value. -/
structure Ctx where
  tag : Nat
deriving DecidableEq, Repr

/-- One `metav1.Condition` entry: type key, status, reason, message,
last-transition time and observed generation. -/
structure Condition where
  condType : String
  status : String
  reason : String
  message : String
  lastTransitionTime : Nat
  observedGeneration : Int
deriving DecidableEq, Repr

/-- Observable side effects of a run, recorded in order. -/
inductive Event where
  | persistCalled : Event
  | wrapperApplied (e : Err) : Event
  | logError (e : Err) (msg : String) : Event
deriving DecidableEq, Repr

/-- Models `meta.FindStatusCondition` (k8s.io/apimachinery collaborator):
the first condition whose type equals `t`. -/
def findStatusCondition (conds : List Condition) (t : String) : Option Condition :=
  conds.find? (fun c => c.condType == t)

/-- Models `meta.RemoveStatusCondition` (k8s.io/apimachinery collaborator):
drop every condition of the given type. -/
def removeStatusCondition (conds : List Condition) (t : String) : List Condition :=
  conds.filter (fun c => c.condType != t)

/-- Freshly appended condition per `meta.SetStatusCondition`: when the type is
not yet present, the new condition is appended, with `LastTransitionTime`
defaulted to `now` if unset. -/
def initCondition (now : Nat) (newc : Condition) : Condition :=
  { newc with lastTransitionTime :=
      if newc.lastTransitionTime = 0 then now else newc.lastTransitionTime }

/-- In-place update of an existing condition per `meta.SetStatusCondition`
(k8s.io/apimachinery collaborator): status, reason, message and observed
generation are taken from the new condition; `LastTransitionTime` changes
only when the status changes (to the new condition's time if set, else
`now`). -/
def mergeCondition (now : Nat) (ex newc : Condition) : Condition :=
  let ex1 :=
    if ex.status != newc.status then
      { ex with status := newc.status,
                lastTransitionTime :=
                  if newc.lastTransitionTime != 0 then newc.lastTransitionTime else now }
    else ex
  { ex1 with reason := newc.reason, message := newc.message,
             observedGeneration := newc.observedGeneration }

/-- Models `meta.SetStatusCondition` (k8s.io/apimachinery collaborator):
replace the first condition with the same type in place, else append. -/
def setStatusCondition (now : Nat) : List Condition → Condition → List Condition
  | [], newc => [initCondition now newc]
  | c :: rest, newc =>
    if c.condType == newc.condType then
      mergeCondition now c newc :: rest
    else
      c :: setStatusCondition now rest newc

/-- Result of one hook invocation: returned error signal, returned
replacement context, and the side effects it performed. -/
abbrev HookResult := Option Err × Option Ctx × List Event

/-- Modelled from the spec: `composed.LogErrorAndReturn` (repo code not under
src; spec §4.4 "default logs the (wrapped) error and returns
*stop-and-requeue*"): log the error with the given message, then return the
given result error and context. -/
def LogErrorAndReturn (e : Err) (msg : String) (result : Option Err) (ctx : Option Ctx) :
    HookResult :=
  (result, ctx, [Event.logError e msg])

/-- The `UpdateStatusBuilder` struct of `updateStatus.go`.  The target
object's data relevant here is its condition slice (`objConditions`) and its
Go dynamic type name (`objType`, standing for the `%T` of `b.obj`). -/
structure UpdateStatusBuilder where
  objType : String
  objConditions : List Condition
  doRemoveConditions : Bool
  conditionsToKeep : List String
  conditionsToSet : List Condition
  updateErrorLogMsg : String
  failedError : Option Err
  successError : Option Err
  updateErrorWrapper : Option (Err → Err)
  onUpdateError : Option (Ctx → Err → HookResult)
  onUpdateSuccess : Option (Ctx → HookResult)

/-- `composed.UpdateStatus`: fresh builder over an object (Go zero values for
every unset field; `conditionsToKeep` starts empty). -/
def UpdateStatus (objType : String) (objConditions : List Condition) : UpdateStatusBuilder :=
  { objType := objType
    objConditions := objConditions
    doRemoveConditions := false
    conditionsToKeep := []
    conditionsToSet := []
    updateErrorLogMsg := ""
    failedError := none
    successError := none
    updateErrorWrapper := none
    onUpdateError := none
    onUpdateSuccess := none }

/-- `UpdateStatusBuilder.RemoveAllConditionsExcept`: record the given types
in the keep-set. -/
def UpdateStatusBuilder.RemoveAllConditionsExcept (b : UpdateStatusBuilder)
    (conditionTypes : List String) : UpdateStatusBuilder :=
  { b with conditionsToKeep := b.conditionsToKeep ++ conditionTypes }

/-- `UpdateStatusBuilder.KeepAllConditions`: clear the removal flag. -/
def UpdateStatusBuilder.KeepAllConditions (b : UpdateStatusBuilder) : UpdateStatusBuilder :=
  { b with doRemoveConditions := false }

/-- `UpdateStatusBuilder.SetCondition`: append one condition to set. -/
def UpdateStatusBuilder.SetCondition (b : UpdateStatusBuilder) (cond : Condition) :
    UpdateStatusBuilder :=
  { b with conditionsToSet := b.conditionsToSet ++ [cond] }

/-- `UpdateStatusBuilder.ErrorLogMessage`. -/
def UpdateStatusBuilder.ErrorLogMessage (b : UpdateStatusBuilder) (msg : String) :
    UpdateStatusBuilder :=
  { b with updateErrorLogMsg := msg }

/-- `UpdateStatusBuilder.UpdateErrorWrapper`. -/
def UpdateStatusBuilder.UpdateErrorWrapper (b : UpdateStatusBuilder) (f : Err → Err) :
    UpdateStatusBuilder :=
  { b with updateErrorWrapper := some f }

/-- `UpdateStatusBuilder.OnUpdateError`. -/
def UpdateStatusBuilder.OnUpdateError (b : UpdateStatusBuilder)
    (f : Ctx → Err → HookResult) : UpdateStatusBuilder :=
  { b with onUpdateError := some f }

/-- `UpdateStatusBuilder.OnUpdateSuccess`. -/
def UpdateStatusBuilder.OnUpdateSuccess (b : UpdateStatusBuilder)
    (f : Ctx → HookResult) : UpdateStatusBuilder :=
  { b with onUpdateSuccess := some f }

/-- `UpdateStatusBuilder.FailedError`. -/
def UpdateStatusBuilder.FailedError (b : UpdateStatusBuilder) (e : Err) : UpdateStatusBuilder :=
  { b with failedError := some e }

/-- `UpdateStatusBuilder.SuccessError`. -/
def UpdateStatusBuilder.SuccessError (b : UpdateStatusBuilder) (e : Err) : UpdateStatusBuilder :=
  { b with successError := some e }

/-- `UpdateStatusBuilder.setDefaults` (lines 113-141): unconditionally
overwrite the error-log message and force `doRemoveConditions := true`; fill
every still-nil hook, wrapper and signal with its default.  The default
`onUpdateError` closure reads `b.updateErrorLogMsg` and `b.failedError` at
invocation time, which by then hold the values computed here. -/
def UpdateStatusBuilder.setDefaults (b : UpdateStatusBuilder) : UpdateStatusBuilder :=
  let updateErrorLogMsg := "Error updating status for " ++ b.objType
  let updateErrorWrapper := b.updateErrorWrapper.getD (fun e => e)
  let successError := b.successError.getD StopAndForget
  let failedError := b.failedError.getD StopWithRequeue
  let onUpdateError := b.onUpdateError.getD
    (fun _ err => LogErrorAndReturn err updateErrorLogMsg (some failedError) none)
  let onUpdateSuccess := b.onUpdateSuccess.getD
    (fun _ => (some successError, none, []))
  { b with
    updateErrorLogMsg := updateErrorLogMsg
    doRemoveConditions := true
    updateErrorWrapper := some updateErrorWrapper
    successError := some successError
    failedError := some failedError
    onUpdateError := some onUpdateError
    onUpdateSuccess := some onUpdateSuccess }

/-- Result of `UpdateStatusBuilder.Run`: returned error signal, returned
replacement context, the object's in-memory conditions after the run, and the
recorded side effects. -/
structure RunResult where
  res : Option Err
  rctx : Option Ctx
  conds : List Condition
  events : List Event
deriving DecidableEq, Repr

/-- `UpdateStatusBuilder.Run` (lines 84-111), translated statement by
statement.  `updateObjStatusResult` is the outcome of the external
persistence call `state.UpdateObjStatus(ctx)` (spec: "persist current
status; return error or nil"); `now` models `time.Now()` inside the
apimachinery condition helpers. -/
def UpdateStatusBuilder.Run (b0 : UpdateStatusBuilder) (now : Nat) (ctx : Ctx)
    (updateObjStatusResult : Option Err) : RunResult :=
  let b := b0.setDefaults
  let conds0 := b.objConditions
  let conds1 :=
    if b.doRemoveConditions then
      let conditionsToRemove := conds0.foldl
        (fun acc c => if b.conditionsToKeep.contains c.condType then acc else acc ++ [c.condType])
        []
      conditionsToRemove.foldl (fun cs t => removeStatusCondition cs t) conds0
    else conds0
  let conds2 := b.conditionsToSet.foldl (fun cs c => setStatusCondition now cs c) conds1
  match updateObjStatusResult with
  | some e =>
    let e2 := (b.updateErrorWrapper.getD (fun x => x)) e
    let h := (b.onUpdateError.getD (fun _ _ => (none, none, []))) ctx e2
    { res := h.1, rctx := h.2.1, conds := conds2,
      events := Event.persistCalled :: Event.wrapperApplied e :: h.2.2 }
  | none =>
    let h := (b.onUpdateSuccess.getD (fun _ => (none, none, []))) ctx
    { res := h.1, rctx := h.2.1, conds := conds2,
      events := Event.persistCalled :: h.2.2 }

/-- An `Action` over a state of type `σ`: a function of the ambient context
and the shared state, returning (error signal, possibly-replaced context) and
the mutated state (Go mutates the state in place; the embedding passes it
explicitly). -/
abbrev Action (σ : Type) := Ctx → σ → Option Err × Option Ctx × σ

/-- Modelled from the spec: `composed.ComposeActions` (repo code not under
src; spec §4.2): execute the steps in declared order against the shared
state; on a non-continue signal return it immediately (no later step runs);
on continue carry forward any replaced ambient context; when the list is
exhausted, the composer itself returns continue. -/
def composeActions {σ : Type} : List (Action σ) → Action σ
  | [] => fun ctx st => (none, some ctx, st)
  | a :: rest => fun ctx st =>
    match a ctx st with
    | (none, newCtx, st1) => composeActions rest (newCtx.getD ctx) st1
    | (some e, newCtx, st1) => (some e, newCtx, st1)

/-- Runs a list of actions assuming every one of them continues: returns the
final ambient context and state when they all do, and `none` as soon as one
of them returns a terminal signal. -/
def runContinues {σ : Type} : List (Action σ) → Ctx → σ → Option (Ctx × σ)
  | [], ctx, st => some (ctx, st)
  | a :: rest, ctx, st =>
    match a ctx st with
    | (none, newCtx, st1) => runContinues rest (newCtx.getD ctx) st1
    | (some _, _, _) => none

/-- A switch case: predicate over the state plus the pipeline to run. -/
structure Case (σ : Type) where
  predicate : σ → Bool
  pipeline : Action σ

/-- Modelled from the spec: `composed.BuildSwitchAction` (repo code not under
src; spec §4.3): evaluate each case's predicate in order; on the first match
run that case's pipeline exclusively, otherwise run the default pipeline. -/
def buildSwitchAction {σ : Type} (defaultPipeline : Action σ) (cases : List (Case σ)) :
    Action σ :=
  fun ctx st =>
    match cases.find? (fun c => c.predicate st) with
    | some c => c.pipeline ctx st
    | none => defaultPipeline ctx st

/-- Result of the action built by `iprange.New`: returned error signal,
returned replacement context, the inner state produced by the factory (if
any), and recorded side effects. -/
structure IpRangeRunResult (σ2 : Type) where
  res : Option Err
  rctx : Option Ctx
  finalState : Option σ2
  events : List Event
deriving Repr

/-- `iprange.New` (src/unnamed/part_000): create the inner state via
`stateFactory.NewState`; on error, wrap it as
"error creating new aws iprange state: %w", log it, and return
`composed.StopAndForget` with a nil context; otherwise run the switch of the
non-delete pipeline (default) against the marked-for-deletion case's delete
pipeline on the new state.  The concrete pipeline steps (`addFinalizer`,
`loadVpc`, ...) are repo code not under src and are taken as parameters. -/
def iprangeNew {σ σ2 : Type} (newState : Ctx → σ → Except Err σ2)
    (markedForDeletion : σ2 → Bool)
    (nonDeleteSteps deleteSteps : List (Action σ2)) :
    Ctx → σ → IpRangeRunResult σ2 :=
  fun ctx st =>
    match newState ctx st with
    | Except.error e =>
      let werr := Err.wrapped "error creating new aws iprange state" e
      { res := some StopAndForget, rctx := none, finalState := none,
        events := [Event.logError werr "Error"] }
    | Except.ok state2 =>
      let r := buildSwitchAction (composeActions nonDeleteSteps)
        [{ predicate := markedForDeletion, pipeline := composeActions deleteSteps }]
        ctx state2
      { res := r.1, rctx := r.2.1, finalState := some r.2.2, events := [] }

/-- Upsert phase of `Run`: fold the configured conditions-to-set over the
condition list via the apimachinery upsert. -/
def upsertConditions (now : Nat) (toSet : List Condition) (conds : List Condition) :
    List Condition :=
  toSet.foldl (setStatusCondition now) conds

/-- Removal phase as the spec words it (§4.4 step 1): keep exactly the
conditions whose type is on the keep-list. -/
def keepOnlyConditions (keep : List String) (conds : List Condition) : List Condition :=
  conds.filter (fun c => keep.contains c.condType)

/-- Follows the spec's step list for `run` (§4.4), written against the
spec's wording for the refinement claim: (1) when the removal policy is
active, drop every condition whose type is absent from the keep-list;
(2) upsert every configured condition entry; (3) invoke persistence; (4) on
failure apply the error-wrapper, invoke the on-persistence-error hook and
return its result; (5) on success invoke the on-persistence-success hook and
return its result. -/
def runSpecOrder (b0 : UpdateStatusBuilder) (now : Nat) (ctx : Ctx)
    (updateObjStatusResult : Option Err) : RunResult :=
  let b := b0.setDefaults
  let conds1 :=
    if b.doRemoveConditions then keepOnlyConditions b.conditionsToKeep b.objConditions
    else b.objConditions
  let conds2 := upsertConditions now b.conditionsToSet conds1
  match updateObjStatusResult with
  | some e =>
    let e2 := (b.updateErrorWrapper.getD (fun x => x)) e
    let h := (b.onUpdateError.getD (fun _ _ => (none, none, []))) ctx e2
    { res := h.1, rctx := h.2.1, conds := conds2,
      events := Event.persistCalled :: Event.wrapperApplied e :: h.2.2 }
  | none =>
    let h := (b.onUpdateSuccess.getD (fun _ => (none, none, []))) ctx
    { res := h.1, rctx := h.2.1, conds := conds2,
      events := Event.persistCalled :: h.2.2 }

/-! ### Sample data for the concrete witnesses -/

/-- Sample condition of type "A". -/
def condA : Condition :=
  { condType := "A", status := "True", reason := "RA", message := "MA",
    lastTransitionTime := 4, observedGeneration := 1 }

/-- Sample condition of type "B". -/
def condB : Condition :=
  { condType := "B", status := "False", reason := "RB", message := "MB",
    lastTransitionTime := 6, observedGeneration := 2 }

/-- Sample existing "Ready" condition. -/
def condReady : Condition :=
  { condType := "Ready", status := "Unknown", reason := "Pending", message := "waiting",
    lastTransitionTime := 10, observedGeneration := 3 }

/-- Sample existing "Overlap" condition. -/
def condOverlap : Condition :=
  { condType := "Overlap", status := "True", reason := "CidrOverlap", message := "overlap",
    lastTransitionTime := 11, observedGeneration := 3 }

/-- Sample configured "Ready" condition to upsert (unset transition time). -/
def condReadyNew : Condition :=
  { condType := "Ready", status := "True", reason := "Provisioned", message := "ready",
    lastTransitionTime := 0, observedGeneration := 4 }

/-- The effect of one upsert on the entry stored under a fixed type key:
create it if absent, merge into it if present. -/
def applyCond (now : Nat) (o : Option Condition) (n : Condition) : Option Condition :=
  match o with
  | none => some (initCondition now n)
  | some ex => some (mergeCondition now ex n)

/-- Equality of all components except the last-transition time. -/
def EqExceptLtt (a b : Condition) : Prop :=
  a.condType = b.condType ∧ a.status = b.status ∧ a.reason = b.reason
  ∧ a.message = b.message ∧ a.observedGeneration = b.observedGeneration


/-- Recognizes the wrapper-invocation side effect. -/
def isWrapperEvent : Event → Bool
  | Event.wrapperApplied _ => true
  | _ => false

/-- Witness step returning continue and recording 1 in the state. -/
def wStepA : Action (List Nat) := fun _ st => (none, none, st ++ [1])

/-- Witness step returning stop-and-forget and recording 2 in the state. -/
def wStepB : Action (List Nat) := fun _ st => (some StopAndForget, none, st ++ [2])

/-- Witness step returning continue and recording 3 in the state. -/
def wStepC : Action (List Nat) := fun _ st => (none, none, st ++ [3])

/-- Witness state factory that always fails. -/
def wFailFactory : Ctx → Nat → Except Err Nat := fun _ _ => Except.error (Err.errMsg "boom")

/-! ### Basic list lemmas used throughout -/

theorem filter_filter' {α : Type} (l : List α) (p q : α → Bool) :
    (l.filter p).filter q = l.filter (fun a => p a && q a) := by
  induction l with
  | nil => rfl
  | cons a l ih =>
    cases hp : p a <;> cases hq : q a <;> simp [List.filter_cons, hp, hq, ih]

theorem contains_true_iff (l : List String) (a : String) :
    l.contains a = true ↔ a ∈ l := List.elem_iff

theorem contains_false_iff (l : List String) (a : String) :
    l.contains a = false ↔ a ∉ l := by
  rw [← Bool.not_eq_true, not_iff_not]
  exact contains_true_iff l a

/-! ### The removal phase of `Run` equals a keep-list filter -/

/-- The first removal loop of `Run` collects, in order, the types of the
object's conditions that are not on the keep-list. -/
theorem foldl_collect_eq (keep : List String) (conds : List Condition) (acc : List String) :
    conds.foldl
      (fun acc c => if keep.contains c.condType then acc else acc ++ [c.condType]) acc
    = acc ++ (conds.map (fun c => c.condType)).filter (fun t => !(keep.contains t)) := by
  induction conds generalizing acc with
  | nil => simp
  | cons c conds ih =>
    rw [List.foldl_cons, List.map_cons, List.filter_cons]
    cases h : keep.contains c.condType with
    | true =>
      rw [if_pos rfl, Bool.not_true, if_neg Bool.false_ne_true]
      exact ih acc
    | false =>
      rw [if_neg Bool.false_ne_true, Bool.not_false, if_pos rfl]
      rw [ih (acc ++ [c.condType]), List.append_assoc, List.singleton_append]

/-- Folding `meta.RemoveStatusCondition` over a list of types filters out
every condition with a type in that list. -/
theorem foldl_remove_eq (ts : List String) (conds : List Condition) :
    ts.foldl (fun cs t => removeStatusCondition cs t) conds
    = conds.filter (fun c => !(ts.contains c.condType)) := by
  induction ts generalizing conds with
  | nil => simp
  | cons t ts ih =>
    have hpt : ∀ c : Condition,
        ((c.condType != t) && !(ts.contains c.condType))
          = !((t :: ts).contains c.condType) := by
      intro c
      simp only [List.contains_cons, Bool.not_or, bne]
    calc (t :: ts).foldl (fun cs t => removeStatusCondition cs t) conds
        = ts.foldl (fun cs t => removeStatusCondition cs t)
            (conds.filter (fun c => c.condType != t)) := rfl
      _ = (conds.filter (fun c => c.condType != t)).filter
            (fun c => !(ts.contains c.condType)) := ih _
      _ = conds.filter (fun c => (c.condType != t) && !(ts.contains c.condType)) :=
            filter_filter' _ _ _
      _ = conds.filter (fun c => !((t :: ts).contains c.condType)) :=
            List.filter_congr (fun c _ => hpt c)

/-- For a condition of the object, its type is on the collected removal list
exactly when it is not on the keep-list. -/
theorem collect_contains_eq (keep : List String) (conds : List Condition)
    (c : Condition) (hc : c ∈ conds) :
    ((conds.map (fun c => c.condType)).filter (fun t => !(keep.contains t))).contains
      c.condType = !(keep.contains c.condType) := by
  cases h : keep.contains c.condType with
  | true =>
    simp only [Bool.not_true]
    rw [contains_false_iff]
    intro hmem
    have := (List.mem_filter.mp hmem).2
    rw [h] at this
    exact absurd this (by simp)
  | false =>
    simp only [Bool.not_false]
    rw [contains_true_iff]
    refine List.mem_filter.mpr ⟨List.mem_map.mpr ⟨c, hc, rfl⟩, ?_⟩
    rw [h]
    rfl

/-- The two-pass removal of `Run` (collect stale types, then remove each)
equals keeping exactly the conditions whose type is on the keep-list. -/
theorem removal_eq_keepOnly (keep : List String) (conds : List Condition) :
    (conds.foldl
        (fun acc c => if keep.contains c.condType then acc else acc ++ [c.condType])
        []).foldl (fun cs t => removeStatusCondition cs t) conds
    = keepOnlyConditions keep conds := by
  rw [foldl_collect_eq, List.nil_append, foldl_remove_eq, keepOnlyConditions]
  refine List.filter_congr (fun c hc => ?_)
  rw [collect_contains_eq keep conds c hc, Bool.not_not]

/-! ### Projections of `setDefaults` and the shared shape of `Run` -/

theorem setDefaults_objConditions (b : UpdateStatusBuilder) :
    b.setDefaults.objConditions = b.objConditions := rfl

theorem setDefaults_conditionsToKeep (b : UpdateStatusBuilder) :
    b.setDefaults.conditionsToKeep = b.conditionsToKeep := rfl

theorem setDefaults_conditionsToSet (b : UpdateStatusBuilder) :
    b.setDefaults.conditionsToSet = b.conditionsToSet := rfl

theorem setDefaults_doRemoveConditions (b : UpdateStatusBuilder) :
    b.setDefaults.doRemoveConditions = true := rfl

/-- The conditions `Run` leaves on the in-memory object: regardless of the
persistence outcome, the keep-list filter followed by the upserts. -/
theorem run_conds_raw (b : UpdateStatusBuilder) (now : Nat) (ctx : Ctx) (p : Option Err) :
    (b.Run now ctx p).conds
    = upsertConditions now b.conditionsToSet
        ((b.objConditions.foldl
            (fun acc c =>
              if b.conditionsToKeep.contains c.condType then acc else acc ++ [c.condType])
            []).foldl (fun cs t => removeStatusCondition cs t) b.objConditions) := by
  cases p <;> rfl

/-- The conditions `Run` leaves on the in-memory object: regardless of the
persistence outcome, the keep-list filter followed by the upserts. -/
theorem run_conds (b : UpdateStatusBuilder) (now : Nat) (ctx : Ctx) (p : Option Err) :
    (b.Run now ctx p).conds
    = upsertConditions now b.conditionsToSet
        (keepOnlyConditions b.conditionsToKeep b.objConditions) := by
  rw [run_conds_raw, removal_eq_keepOnly]

/-! ### Type keys under the upsert -/

theorem mergeCondition_condType (now : Nat) (ex n : Condition) :
    (mergeCondition now ex n).condType = ex.condType := by
  simp only [mergeCondition]
  split <;> rfl

theorem initCondition_condType (now : Nat) (n : Condition) :
    (initCondition now n).condType = n.condType := rfl

theorem mem_map_upsert (now : Nat) (conds : List Condition) (n : Condition) (t : String)
    (h : t ∈ conds.map (fun c => c.condType)) :
    t ∈ (setStatusCondition now conds n).map (fun c => c.condType) := by
  induction conds with
  | nil => simp at h
  | cons c rest ih =>
    rw [setStatusCondition]
    rcases List.mem_cons.mp h with h1 | h2
    · cases hb : c.condType == n.condType with
      | true => simp [mergeCondition_condType, h1]
      | false => simp [h1]
    · cases hb : c.condType == n.condType with
      | true => simp [mergeCondition_condType, h2]
      | false => simp [ih h2]

theorem not_mem_map_upsert (now : Nat) (conds : List Condition) (n : Condition) (t : String)
    (h : t ∉ conds.map (fun c => c.condType)) (hn : n.condType ≠ t) :
    t ∉ (setStatusCondition now conds n).map (fun c => c.condType) := by
  induction conds with
  | nil =>
    rw [setStatusCondition, List.map_cons, List.map_nil, initCondition_condType]
    simp only [List.mem_singleton]
    exact fun he => hn he.symm
  | cons c rest ih =>
    rw [setStatusCondition]
    have hne1 : t ≠ c.condType := fun he => h (by simp [he])
    have h2 : t ∉ rest.map (fun c => c.condType) := fun hm => h (by simp [hm])
    cases hb : c.condType == n.condType with
    | true =>
      rw [if_pos rfl, List.map_cons, mergeCondition_condType]
      simp only [List.mem_cons, not_or]
      exact ⟨hne1, h2⟩
    | false =>
      rw [if_neg Bool.false_ne_true, List.map_cons]
      simp only [List.mem_cons, not_or]
      exact ⟨hne1, ih h2⟩

theorem nodup_map_upsert (now : Nat) (conds : List Condition) (n : Condition)
    (h : (conds.map (fun c => c.condType)).Nodup) :
    ((setStatusCondition now conds n).map (fun c => c.condType)).Nodup := by
  induction conds with
  | nil => simp [setStatusCondition]
  | cons c rest ih =>
    rw [setStatusCondition]
    rw [List.map_cons, List.nodup_cons] at h
    cases hb : c.condType == n.condType with
    | true =>
      rw [if_pos rfl, List.map_cons, mergeCondition_condType, List.nodup_cons]
      exact ⟨h.1, h.2⟩
    | false =>
      rw [if_neg Bool.false_ne_true, List.map_cons, List.nodup_cons]
      have hcn : n.condType ≠ c.condType := by
        intro he
        rw [← he] at hb
        simp at hb
      exact ⟨not_mem_map_upsert now rest n c.condType h.1 hcn, ih h.2⟩

theorem mem_map_upsertConditions (now : Nat) (ts conds : List Condition) (t : String)
    (h : t ∈ conds.map (fun c => c.condType)) :
    t ∈ (upsertConditions now ts conds).map (fun c => c.condType) := by
  induction ts generalizing conds with
  | nil => exact h
  | cons n ts ih => exact ih _ (mem_map_upsert now conds n t h)

theorem not_mem_map_upsertConditions (now : Nat) (ts conds : List Condition) (t : String)
    (h : t ∉ conds.map (fun c => c.condType)) (hts : ∀ n ∈ ts, n.condType ≠ t) :
    t ∉ (upsertConditions now ts conds).map (fun c => c.condType) := by
  induction ts generalizing conds with
  | nil => exact h
  | cons n ts ih =>
    exact ih _ (not_mem_map_upsert now conds n t h (hts n (by simp)))
      (fun m hm => hts m (by simp [hm]))

theorem nodup_map_upsertConditions (now : Nat) (ts conds : List Condition)
    (h : (conds.map (fun c => c.condType)).Nodup) :
    ((upsertConditions now ts conds).map (fun c => c.condType)).Nodup := by
  induction ts generalizing conds with
  | nil => exact h
  | cons n ts ih => exact ih _ (nodup_map_upsert now conds n h)

theorem nodup_map_keepOnly (keep : List String) (conds : List Condition)
    (h : (conds.map (fun c => c.condType)).Nodup) :
    ((keepOnlyConditions keep conds).map (fun c => c.condType)).Nodup := by
  refine h.sublist (List.Sublist.map _ ?_)
  exact List.filter_sublist conds

theorem mem_map_keepOnly (keep : List String) (conds : List Condition) (t : String)
    (ht : t ∈ conds.map (fun c => c.condType)) (hk : keep.contains t = true) :
    t ∈ (keepOnlyConditions keep conds).map (fun c => c.condType) := by
  obtain ⟨c, hc, he⟩ := List.mem_map.mp ht
  refine List.mem_map.mpr ⟨c, List.mem_filter.mpr ⟨hc, ?_⟩, he⟩
  rw [he, hk]

theorem not_mem_map_keepOnly (keep : List String) (conds : List Condition) (t : String)
    (hk : keep.contains t = false) :
    t ∉ (keepOnlyConditions keep conds).map (fun c => c.condType) := by
  intro hm
  obtain ⟨c, hc, he⟩ := List.mem_map.mp hm
  have := (List.mem_filter.mp hc).2
  rw [he, hk] at this
  exact absurd this (by simp)

theorem foldl_SetCondition : ∀ (ts : List Condition) (b : UpdateStatusBuilder),
    ts.foldl (fun b c => b.SetCondition c) b
    = { b with conditionsToSet := b.conditionsToSet ++ ts }
  | [], b => by cases b; simp
  | n :: ts, b => by
    rw [List.foldl_cons, foldl_SetCondition ts]
    cases b
    simp [UpdateStatusBuilder.SetCondition, List.append_assoc]

/-! ### Claim theorems: C6 and C3 -/

/-- C6. Condition-key uniqueness invariant: for every builder configuration
and every starting object whose condition set has unique type keys, after
`Run` completes the object's condition set still contains at most one entry
per condition-type key. -/
theorem C6_condition_key_uniqueness (b : UpdateStatusBuilder) (now : Nat) (ctx : Ctx)
    (p : Option Err) (h : (b.objConditions.map (fun c => c.condType)).Nodup) :
    (((b.Run now ctx p).conds).map (fun c => c.condType)).Nodup := by
  rw [run_conds]
  exact nodup_map_upsertConditions _ _ _ (nodup_map_keepOnly _ _ h)

/-- Witness for C6 at a concrete input. -/
theorem C6_condition_key_uniqueness_witness :
    ((([condA, condB]).map (fun c => c.condType)).Nodup)
    ∧ ((((UpdateStatus "IpRange" [condA, condB]).Run 0 ⟨0⟩ none).conds).map
        (fun c => c.condType)).Nodup :=
  ⟨by decide, C6_condition_key_uniqueness (UpdateStatus "IpRange" [condA, condB]) 0 ⟨0⟩ none
    (by decide)⟩

/-- C3. Removal-policy correctness: on an object whose condition types are
exactly {Ready, Overlap}, a builder configured with
`RemoveAllConditionsExcept("Ready")` (and any conditions-to-set not of type
Overlap) leaves, after `Run`, a condition set where type Overlap is absent
and type Ready is present. -/
theorem C3_removal_policy_correct (oType : String) (conds ts : List Condition) (now : Nat)
    (ctx : Ctx) (p : Option Err)
    (hReady : "Ready" ∈ conds.map (fun c => c.condType))
    (_hOverlap : "Overlap" ∈ conds.map (fun c => c.condType))
    (_hExact : ∀ c ∈ conds, c.condType = "Ready" ∨ c.condType = "Overlap")
    (hts : ∀ n ∈ ts, n.condType ≠ "Overlap") :
    "Overlap" ∉ (((ts.foldl (fun b c => b.SetCondition c)
        ((UpdateStatus oType conds).RemoveAllConditionsExcept ["Ready"])).Run
          now ctx p).conds).map (fun c => c.condType)
    ∧ "Ready" ∈ (((ts.foldl (fun b c => b.SetCondition c)
        ((UpdateStatus oType conds).RemoveAllConditionsExcept ["Ready"])).Run
          now ctx p).conds).map (fun c => c.condType) := by
  rw [foldl_SetCondition, run_conds]
  simp only [UpdateStatus, UpdateStatusBuilder.RemoveAllConditionsExcept, List.nil_append]
  constructor
  · exact not_mem_map_upsertConditions now _ _ _
      (not_mem_map_keepOnly _ _ _ (by decide)) hts
  · exact mem_map_upsertConditions now _ _ _
      (mem_map_keepOnly _ _ _ hReady (by decide))

/-- Witness for C3 at a concrete input. -/
theorem C3_removal_policy_correct_witness :
    (("Ready" ∈ ([condReady, condOverlap]).map (fun c => c.condType))
      ∧ ("Overlap" ∈ ([condReady, condOverlap]).map (fun c => c.condType))
      ∧ (∀ c ∈ [condReady, condOverlap], c.condType = "Ready" ∨ c.condType = "Overlap")
      ∧ (∀ n ∈ [condReadyNew], n.condType ≠ "Overlap"))
    ∧ ("Overlap" ∉ ((([condReadyNew].foldl (fun b c => b.SetCondition c)
          ((UpdateStatus "IpRange" [condReady, condOverlap]).RemoveAllConditionsExcept
            ["Ready"])).Run 5 ⟨1⟩ none).conds).map (fun c => c.condType)
      ∧ "Ready" ∈ ((([condReadyNew].foldl (fun b c => b.SetCondition c)
          ((UpdateStatus "IpRange" [condReady, condOverlap]).RemoveAllConditionsExcept
            ["Ready"])).Run 5 ⟨1⟩ none).conds).map (fun c => c.condType)) :=
  ⟨⟨by decide, by decide, by decide, by decide⟩,
    C3_removal_policy_correct "IpRange" [condReady, condOverlap] [condReadyNew] 5 ⟨1⟩ none
      (by decide) (by decide) (by decide) (by decide)⟩

/-! ### Pointwise view of the upsert: the per-type-key update function -/

theorem mergeCondition_of_status_eq (now : Nat) (ex n : Condition) (h : ex.status = n.status) :
    mergeCondition now ex n
    = { ex with reason := n.reason, message := n.message,
                observedGeneration := n.observedGeneration } := by
  have hb : (ex.status != n.status) = false := by rw [h, bne_self_eq_false]
  simp only [mergeCondition]
  rw [hb, if_neg Bool.false_ne_true]

theorem mergeCondition_of_status_ne (now : Nat) (ex n : Condition) (h : ex.status ≠ n.status) :
    mergeCondition now ex n
    = { ex with status := n.status,
                lastTransitionTime :=
                  if n.lastTransitionTime != 0 then n.lastTransitionTime else now,
                reason := n.reason, message := n.message,
                observedGeneration := n.observedGeneration } := by
  simp only [mergeCondition]
  rw [if_pos (bne_iff_ne.mpr h)]

theorem mergeCondition_status (now : Nat) (ex n : Condition) :
    (mergeCondition now ex n).status = n.status := by
  by_cases h : ex.status = n.status
  · rw [mergeCondition_of_status_eq now ex n h]
    exact h
  · rw [mergeCondition_of_status_ne now ex n h]

/-- Every shape of `applyCond` yields an entry whose status, reason, message
and observed generation come from the upserted condition. -/
theorem applyCond_spec (now : Nat) (s : Option Condition) (n : Condition) :
    ∃ c1, applyCond now s n = some c1 ∧ c1.status = n.status ∧ c1.reason = n.reason
      ∧ c1.message = n.message ∧ c1.observedGeneration = n.observedGeneration := by
  cases s with
  | none => exact ⟨initCondition now n, rfl, rfl, rfl, rfl, rfl⟩
  | some ex => exact ⟨mergeCondition now ex n, rfl, mergeCondition_status now ex n, rfl, rfl, rfl⟩

theorem eqExceptLtt_refl (a : Condition) : EqExceptLtt a a := ⟨rfl, rfl, rfl, rfl, rfl⟩

theorem eq_of_eqExceptLtt {a b : Condition} (h : EqExceptLtt a b)
    (hl : a.lastTransitionTime = b.lastTransitionTime) : a = b := by
  obtain ⟨h1, h2, h3, h4, h5⟩ := h
  cases a
  cases b
  dsimp at h1 h2 h3 h4 h5 hl
  rw [h1, h2, h3, h4, h5, hl]

/-- Folding `applyCond` from a present entry stays present and keeps the
type key. -/
theorem foldl_applyCond_some (now : Nat) : ∀ (ts : List Condition) (a : Condition),
    ∃ a2, ts.foldl (applyCond now) (some a) = some a2 ∧ a2.condType = a.condType
  | [], a => ⟨a, rfl, rfl⟩
  | n :: ts, a => by
    rw [List.foldl_cons]
    obtain ⟨a2, h1, h2⟩ := foldl_applyCond_some now ts (mergeCondition now a n)
    exact ⟨a2, by simpa [applyCond] using h1, by rw [h2, mergeCondition_condType]⟩

/-- Convergence of two `applyCond` folds whose starting entries differ at
most in the last-transition time: the results again differ at most there,
and either their times agree or both times were carried through unchanged
(in which case the status never changed either). -/
theorem foldl_applyCond_converge (now : Nat) : ∀ (ts : List Condition) (a b : Condition),
    EqExceptLtt a b →
    ∃ a2 b2, ts.foldl (applyCond now) (some a) = some a2
      ∧ ts.foldl (applyCond now) (some b) = some b2
      ∧ EqExceptLtt a2 b2
      ∧ (a2.lastTransitionTime = b2.lastTransitionTime
        ∨ (a2.lastTransitionTime = a.lastTransitionTime
          ∧ b2.lastTransitionTime = b.lastTransitionTime
          ∧ b2.status = b.status))
  | [], a, b, h => ⟨a, b, rfl, rfl, h, Or.inr ⟨rfl, rfl, rfl⟩⟩
  | n :: ts, a, b, h => by
    rw [List.foldl_cons, List.foldl_cons]
    simp only [applyCond]
    by_cases hs : a.status = n.status
    · have hbs : b.status = n.status := by rw [← h.2.1]; exact hs
      rw [mergeCondition_of_status_eq now a n hs, mergeCondition_of_status_eq now b n hbs]
      obtain ⟨a2, b2, ha, hb, heq, hd⟩ := foldl_applyCond_converge now ts
        { a with reason := n.reason, message := n.message,
                 observedGeneration := n.observedGeneration }
        { b with reason := n.reason, message := n.message,
                 observedGeneration := n.observedGeneration }
        ⟨h.1, h.2.1, rfl, rfl, rfl⟩
      refine ⟨a2, b2, ha, hb, heq, ?_⟩
      rcases hd with hl | ⟨h1, h2, h3⟩
      · exact Or.inl hl
      · exact Or.inr ⟨h1, h2, h3⟩
    · have hbs : b.status ≠ n.status := by rw [← h.2.1]; exact hs
      rw [mergeCondition_of_status_ne now a n hs, mergeCondition_of_status_ne now b n hbs]
      have hab : ({ a with status := n.status,
                           lastTransitionTime :=
                             if n.lastTransitionTime != 0 then n.lastTransitionTime else now,
                           reason := n.reason, message := n.message,
                           observedGeneration := n.observedGeneration } : Condition)
          = { b with status := n.status,
                     lastTransitionTime :=
                       if n.lastTransitionTime != 0 then n.lastTransitionTime else now,
                     reason := n.reason, message := n.message,
                     observedGeneration := n.observedGeneration } := by
        obtain ⟨h1, _, _, _, _⟩ := h
        cases a
        cases b
        dsimp at h1
        rw [h1]
      rw [hab]
      obtain ⟨b2, hfold, _⟩ := foldl_applyCond_some now ts _
      exact ⟨b2, b2, hfold, hfold, eqExceptLtt_refl b2, Or.inl rfl⟩

/-- Re-running the same per-key update chain on its own result is a no-op:
the heart of the idempotence claim. -/
theorem foldl_applyCond_idem (now : Nat) : ∀ (ts : List Condition) (s : Option Condition),
    ts.foldl (applyCond now) (ts.foldl (applyCond now) s) = ts.foldl (applyCond now) s
  | [], _ => rfl
  | n :: ts, s => by
    rw [List.foldl_cons, List.foldl_cons]
    obtain ⟨c1, hc1, hstat, hreason, hmsg, hgen⟩ := applyCond_spec now s n
    rw [hc1]
    obtain ⟨m, hm, hmT⟩ := foldl_applyCond_some now ts c1
    rw [hm]
    simp only [applyCond]
    have hEq : EqExceptLtt (mergeCondition now m n) c1 := by
      refine ⟨?_, ?_, ?_, ?_, ?_⟩
      · rw [mergeCondition_condType]
        exact hmT
      · rw [mergeCondition_status]
        exact hstat.symm
      · exact (rfl : (mergeCondition now m n).reason = n.reason).trans hreason.symm
      · exact (rfl : (mergeCondition now m n).message = n.message).trans hmsg.symm
      · exact (rfl : (mergeCondition now m n).observedGeneration
          = n.observedGeneration).trans hgen.symm
    obtain ⟨a2, b2, ha, hb, heq, hd⟩ := foldl_applyCond_converge now ts _ _ hEq
    have hb2 : b2 = m := Option.some.inj (hb.symm.trans hm)
    rw [hb2] at heq hd
    rcases hd with hl | ⟨h1, _, h3⟩
    · rw [eq_of_eqExceptLtt heq hl] at ha
      exact ha
    · have hms : m.status = n.status := h3.trans hstat
      have hml : (mergeCondition now m n).lastTransitionTime = m.lastTransitionTime := by
        rw [mergeCondition_of_status_eq now m n hms]
      rw [eq_of_eqExceptLtt heq (h1.trans hml)] at ha
      exact ha

/-! ### Find-characterization of the upsert fold -/

theorem findStatusCondition_nil (t : String) : findStatusCondition [] t = none := rfl

theorem findStatusCondition_cons_of_eq (c : Condition) (rest : List Condition) (t : String)
    (h : c.condType = t) : findStatusCondition (c :: rest) t = some c :=
  List.find?_cons_of_pos rest (beq_iff_eq.mpr h)

theorem findStatusCondition_cons_of_ne (c : Condition) (rest : List Condition) (t : String)
    (h : c.condType ≠ t) : findStatusCondition (c :: rest) t = findStatusCondition rest t :=
  List.find?_cons_of_neg rest (by simp [beq_eq_false_iff_ne.mpr h])

/-- One upsert, viewed through the per-type-key lens: it touches exactly the
entry stored under the upserted condition's type. -/
theorem find_upsert (now : Nat) (conds : List Condition) (n : Condition) (t : String) :
    findStatusCondition (setStatusCondition now conds n) t
    = if n.condType = t
      then applyCond now (findStatusCondition conds t) n
      else findStatusCondition conds t := by
  induction conds with
  | nil =>
    rw [setStatusCondition, findStatusCondition_nil]
    by_cases h : n.condType = t
    · rw [if_pos h, findStatusCondition_cons_of_eq _ _ _ (initCondition_condType now n ▸ h)]
      rfl
    · rw [if_neg h, findStatusCondition_cons_of_ne _ _ _ (initCondition_condType now n ▸ h),
        findStatusCondition_nil]
  | cons c rest ih =>
    rw [setStatusCondition]
    by_cases hcn : c.condType = n.condType
    · rw [beq_iff_eq.mpr hcn, if_pos rfl]
      by_cases hct : c.condType = t
      · have hnt : n.condType = t := hcn ▸ hct
        rw [if_pos hnt,
          findStatusCondition_cons_of_eq _ _ _ ((mergeCondition_condType now c n).trans hct),
          findStatusCondition_cons_of_eq _ _ _ hct]
        rfl
      · have hnt : n.condType ≠ t := fun he => hct (hcn.trans he)
        rw [if_neg hnt,
          findStatusCondition_cons_of_ne _ _ _
            (fun he => hct ((mergeCondition_condType now c n).symm.trans he)),
          findStatusCondition_cons_of_ne _ _ _ hct]
    · rw [beq_eq_false_iff_ne.mpr hcn, if_neg Bool.false_ne_true]
      by_cases hct : c.condType = t
      · have hnt : n.condType ≠ t := fun he => hcn (hct.trans he.symm)
        rw [if_neg hnt, findStatusCondition_cons_of_eq _ _ _ hct,
          findStatusCondition_cons_of_eq _ _ _ hct]
      · rw [findStatusCondition_cons_of_ne _ _ _ hct, findStatusCondition_cons_of_ne _ _ _ hct,
          ih]

/-- The whole upsert fold, viewed through the per-type-key lens: the entry
stored under type `t` is the  fold of `applyCond` over exactly the
conditions-to-set of type `t`. -/
theorem find_upsertConditions (now : Nat) : ∀ (ts conds : List Condition) (t : String),
    findStatusCondition (upsertConditions now ts conds) t
    = (ts.filter (fun n => n.condType == t)).foldl (applyCond now)
        (findStatusCondition conds t)
  | [], conds, t => rfl
  | n :: ts, conds, t => by
    simp only [upsertConditions] at *
    rw [List.foldl_cons, List.filter_cons]
    have hrec := find_upsertConditions now ts (setStatusCondition now conds n) t
    simp only [upsertConditions] at hrec
    rw [hrec, find_upsert]
    by_cases hnt : n.condType = t
    · rw [if_pos hnt, beq_iff_eq.mpr hnt, if_pos rfl, List.foldl_cons]
    · rw [if_neg hnt, beq_eq_false_iff_ne.mpr hnt, if_neg Bool.false_ne_true]

/-- The keep-list filter does not disturb the entry stored under a kept
type. -/
theorem find_keepOnly_of_kept (keep : List String) (conds : List Condition) (t : String)
    (hk : keep.contains t = true) :
    findStatusCondition (keepOnlyConditions keep conds) t = findStatusCondition conds t := by
  induction conds with
  | nil => rfl
  | cons c rest ih =>
    rw [keepOnlyConditions, List.filter_cons]
    rw [keepOnlyConditions] at ih
    by_cases hct : c.condType = t
    · have hkc : keep.contains c.condType = true := by rw [hct]; exact hk
      rw [hkc, if_pos rfl, findStatusCondition_cons_of_eq _ _ _ hct,
        findStatusCondition_cons_of_eq _ _ _ hct]
    · rw [findStatusCondition_cons_of_ne _ _ _ hct]
      cases hkc : keep.contains c.condType with
      | true => rw [if_pos rfl, findStatusCondition_cons_of_ne _ _ _ hct, ih]
      | false => rw [if_neg Bool.false_ne_true, ih]

/-- The keep-list filter erases the entry stored under a non-kept type. -/
theorem find_keepOnly_of_not_kept (keep : List String) (conds : List Condition) (t : String)
    (hk : keep.contains t = false) :
    findStatusCondition (keepOnlyConditions keep conds) t = none := by
  rw [findStatusCondition, List.find?_eq_none]
  intro x hx hbx
  have hmem := (List.mem_filter.mp hx).2
  have hxt : x.condType = t := beq_iff_eq.mp hbx
  rw [hxt, hk] at hmem
  exact absurd hmem (by simp)

/-! ### Claim theorem: C5 -/

/-- C5. Status-Update Builder idempotence: for every builder configuration
and object, running `Run` twice with identical inputs (the second run seeing
the object conditions the first run left behind, with no external change)
yields the identical final condition set, read as the spec defines a
condition set: the mapping from each condition-type key to its entry.  The
upsert replaces by type key rather than appending a duplicate. -/
theorem C5_run_idempotent (b : UpdateStatusBuilder) (now : Nat) (ctx : Ctx) (p : Option Err)
    (t : String) :
    findStatusCondition
      (({ b with objConditions := (b.Run now ctx p).conds }).Run now ctx p).conds t
    = findStatusCondition ((b.Run now ctx p).conds) t := by
  rw [run_conds, run_conds]
  dsimp only
  rw [find_upsertConditions, find_upsertConditions]
  cases hk : b.conditionsToKeep.contains t with
  | true =>
    rw [find_keepOnly_of_kept _ _ _ hk, find_upsertConditions,
      find_keepOnly_of_kept _ _ _ hk]
    exact foldl_applyCond_idem now _ _
  | false =>
    rw [find_keepOnly_of_not_kept _ _ _ hk, find_keepOnly_of_not_kept _ _ _ hk]

/-! ### Remaining claim theorems -/

theorem runResult_ext (r1 r2 : RunResult) (h1 : r1.res = r2.res) (h2 : r1.rctx = r2.rctx)
    (h3 : r1.conds = r2.conds) (h4 : r1.events = r2.events) : r1 = r2 := by
  cases r1
  cases r2
  dsimp at h1 h2 h3 h4
  rw [h1, h2, h3, h4]

/-- C1 (evaluation of the code at the failing input). A builder configured
with `KeepAllConditions` and no conditions-to-set strips every condition: on
an object with conditions {A, B}, `Run` leaves an empty condition set,
because `setDefaults` unconditionally forces `doRemoveConditions := true`,
making `KeepAllConditions` (which had set it to `false`) a no-op. -/
theorem C1_keepAllConditions_overridden_eval :
    ((((UpdateStatus "IpRange" [condA, condB]).KeepAllConditions).Run 7 ⟨0⟩ none).conds = [])
    ∧ ((UpdateStatus "IpRange" [condA, condB]).KeepAllConditions).doRemoveConditions = false
    ∧ (((UpdateStatus "IpRange" [condA, condB]).KeepAllConditions).setDefaults).doRemoveConditions
      = true :=
  ⟨rfl, rfl, rfl⟩

/-- C2. Default persistence outcomes: with no hooks, no failure/success
signals and no error-wrapper configured, a failing persistence call makes
`Run` apply the (identity) error-wrapper exactly once to the persistence
error, log it, and return stop-and-requeue; a successful persistence call
makes `Run` return stop-and-forget. -/
theorem C2_default_persistence_outcomes (b : UpdateStatusBuilder) (now : Nat) (ctx : Ctx)
    (e : Err)
    (h1 : b.onUpdateError = none) (h2 : b.onUpdateSuccess = none)
    (h3 : b.failedError = none) (h4 : b.successError = none)
    (h5 : b.updateErrorWrapper = none) :
    (b.Run now ctx (some e)).res = some StopWithRequeue
    ∧ ((b.Run now ctx (some e)).events.countP isWrapperEvent = 1)
    ∧ (b.Run now ctx (some e)).events
      = [Event.persistCalled, Event.wrapperApplied e,
         Event.logError e ("Error updating status for " ++ b.objType)]
    ∧ (b.Run now ctx none).res = some StopAndForget := by
  cases b
  dsimp only at h1 h2 h3 h4 h5
  subst h1
  subst h2
  subst h3
  subst h4
  subst h5
  exact ⟨rfl, rfl, rfl, rfl⟩

/-- Witness for C2 at a concrete input. -/
theorem C2_default_persistence_outcomes_witness :
    ((UpdateStatus "IpRange" [condA]).onUpdateError = none
      ∧ (UpdateStatus "IpRange" [condA]).updateErrorWrapper = none)
    ∧ (((UpdateStatus "IpRange" [condA]).Run 3 ⟨2⟩ (some (Err.errMsg "boom"))).res
        = some StopWithRequeue
      ∧ (((UpdateStatus "IpRange" [condA]).Run 3 ⟨2⟩
          (some (Err.errMsg "boom"))).events.countP isWrapperEvent = 1)
      ∧ ((UpdateStatus "IpRange" [condA]).Run 3 ⟨2⟩ (some (Err.errMsg "boom"))).events
        = [Event.persistCalled, Event.wrapperApplied (Err.errMsg "boom"),
           Event.logError (Err.errMsg "boom")
             ("Error updating status for " ++ (UpdateStatus "IpRange" [condA]).objType)]
      ∧ ((UpdateStatus "IpRange" [condA]).Run 3 ⟨2⟩ none).res = some StopAndForget) :=
  ⟨⟨rfl, rfl⟩, C2_default_persistence_outcomes (UpdateStatus "IpRange" [condA]) 3 ⟨2⟩
    (Err.errMsg "boom") rfl rfl rfl rfl rfl⟩

/-- C4. `Run` performs its steps in the spec's fixed order: removal of
non-kept condition types (the policy being unconditionally active after
`setDefaults`), then the upserts, then the persistence call, then on failure
wrapper plus error hook, on success the success hook — i.e. `Run` coincides
with the step-ordered `runSpecOrder` on every input. -/
theorem C4_run_follows_spec_order (b : UpdateStatusBuilder) (now : Nat) (ctx : Ctx)
    (p : Option Err) :
    b.Run now ctx p = runSpecOrder b now ctx p := by
  refine runResult_ext _ _ ?_ ?_ ?_ ?_
  · cases p <;> rfl
  · cases p <;> rfl
  · cases p <;> rw [run_conds_raw, removal_eq_keepOnly] <;> rfl
  · cases p <;> rfl

/-- C8. No atomicity on persistence failure: when the persistence call
fails, `Run` still leaves the in-memory object's conditions fully reconciled
(removals and upserts applied), identical to what a successful run leaves —
nothing is rolled back. -/
theorem C8_no_rollback_on_persist_failure (b : UpdateStatusBuilder) (now : Nat) (ctx : Ctx)
    (e : Err) :
    (b.Run now ctx (some e)).conds
      = upsertConditions now b.conditionsToSet
          (keepOnlyConditions b.conditionsToKeep b.objConditions)
    ∧ (b.Run now ctx (some e)).conds = (b.Run now ctx none).conds := by
  refine ⟨run_conds b now ctx (some e), ?_⟩
  rw [run_conds, run_conds]

/-- C9. `ErrorLogMessage` has no effect: `setDefaults` unconditionally
overwrites the stored message at the start of `Run`, so two runs differing
only in the `ErrorLogMessage` argument behave identically. -/
theorem C9_errorLogMessage_no_effect (b : UpdateStatusBuilder) (msg : String) (now : Nat)
    (ctx : Ctx) (p : Option Err) :
    (b.ErrorLogMessage msg).Run now ctx p = b.Run now ctx p := by
  cases b
  cases p <;> rfl

/-- Running a continuing prefix carries the composer to the rest of the
chain with the evolved context and state. -/
theorem composeActions_through_continues {σ : Type} :
    ∀ (pre rest : List (Action σ)) (ctx : Ctx) (st : σ) (ctx2 : Ctx) (st2 : σ),
    runContinues pre ctx st = some (ctx2, st2) →
    composeActions (pre ++ rest) ctx st = composeActions rest ctx2 st2
  | [], rest, ctx, st, ctx2, st2, h => by
    injection h with h1
    rw [Prod.mk.injEq] at h1
    rw [← h1.1, ← h1.2]
    rfl
  | a :: pre, rest, ctx, st, ctx2, st2, h => by
    rw [runContinues] at h
    rw [List.cons_append]
    simp only [composeActions]
    rcases ha : a ctx st with ⟨oe, oc, st1⟩
    rw [ha] at h
    cases oe with
    | some e => exact absurd h (by simp)
    | none => exact composeActions_through_continues pre rest (oc.getD ctx) st1 ctx2 st2 h

/-- C7. Sequential Composer short-circuit: the composed action executes the
steps in declared order; after any continuing prefix, a step returning a
non-continue signal determines the whole result regardless of the steps
after it (so they never execute); and if every step continues, the composed
action itself returns continue. -/
theorem C7_composeActions_short_circuit :
    (∀ (σ : Type) (pre : List (Action σ)) (b : Action σ) (post : List (Action σ))
      (ctx : Ctx) (st : σ) (ctx2 : Ctx) (st2 : σ) (e : Err) (c : Option Ctx) (st3 : σ),
      runContinues pre ctx st = some (ctx2, st2) →
      b ctx2 st2 = (some e, c, st3) →
      composeActions (pre ++ b :: post) ctx st = (some e, c, st3))
    ∧ (∀ (σ : Type) (acts : List (Action σ)) (ctx : Ctx) (st : σ) (ctx2 : Ctx) (st2 : σ),
      runContinues acts ctx st = some (ctx2, st2) →
      composeActions acts ctx st = (none, some ctx2, st2)) := by
  constructor
  · intro σ pre b post ctx st ctx2 st2 e c st3 h1 h2
    rw [composeActions_through_continues pre (b :: post) ctx st ctx2 st2 h1]
    simp only [composeActions]
    rw [h2]
  · intro σ acts ctx st ctx2 st2 h
    have hc := composeActions_through_continues acts [] ctx st ctx2 st2 h
    rw [List.append_nil] at hc
    rw [hc]
    rfl

/-- Witness for C7 at a concrete input: [A→continue, B→stop-forget, C] gives
stop-forget with C's state effect absent, and an all-continue chain returns
continue. -/
theorem C7_composeActions_short_circuit_witness :
    (runContinues [wStepA] ⟨0⟩ ([] : List Nat) = some (⟨0⟩, [1])
      ∧ wStepB ⟨0⟩ [1] = (some Err.stopAndForget, none, [1, 2])
      ∧ composeActions [wStepA, wStepB, wStepC] ⟨0⟩ ([] : List Nat)
        = (some Err.stopAndForget, none, [1, 2]))
    ∧ (runContinues [wStepA, wStepC] ⟨0⟩ ([] : List Nat) = some (⟨0⟩, [1, 3])
      ∧ composeActions [wStepA, wStepC] ⟨0⟩ ([] : List Nat) = (none, some ⟨0⟩, [1, 3])) :=
  ⟨⟨rfl, rfl,
    C7_composeActions_short_circuit.1 (List Nat) [wStepA] wStepB [wStepC] ⟨0⟩ [] ⟨0⟩ [1]
      Err.stopAndForget none [1, 2] rfl rfl⟩,
   ⟨rfl,
    C7_composeActions_short_circuit.2 (List Nat) [wStepA, wStepC] ⟨0⟩ [] ⟨0⟩ [1, 3] rfl⟩⟩

/-- C10. IpRange state-creation failure path: when `StateFactory.NewState`
fails, the action built by `iprange.New` logs the wrapped error and returns
stop-and-forget with a nil replacement context; since the result holds for
every pair of pipelines, neither the non-delete pipeline nor the delete
pipeline executes. -/
theorem C10_iprange_state_creation_failure {σ σ2 : Type}
    (newState : Ctx → σ → Except Err σ2) (markedForDeletion : σ2 → Bool)
    (nonDeleteSteps deleteSteps : List (Action σ2)) (ctx : Ctx) (st : σ) (e : Err)
    (h : newState ctx st = Except.error e) :
    iprangeNew newState markedForDeletion nonDeleteSteps deleteSteps ctx st
    = { res := some StopAndForget, rctx := none, finalState := none,
        events := [Event.logError (Err.wrapped "error creating new aws iprange state" e)
          "Error"] } := by
  rw [iprangeNew, h]

/-- Witness for C10 at a concrete input. -/
theorem C10_iprange_state_creation_failure_witness :
    (wFailFactory ⟨0⟩ 0 = Except.error (Err.errMsg "boom"))
    ∧ iprangeNew wFailFactory (fun _ => false) [] [] ⟨0⟩ (0 : Nat)
      = { res := some StopAndForget, rctx := none, finalState := none,
          events := [Event.logError
            (Err.wrapped "error creating new aws iprange state" (Err.errMsg "boom"))
            "Error"] } :=
  ⟨rfl, C10_iprange_state_creation_failure wFailFactory (fun _ => false) [] [] ⟨0⟩ 0
    (Err.errMsg "boom") rfl⟩

end CloudManager
